import Mathlib

/-!
# Verification of the resilient chunked acquisition engine (AfetchData.py)

Shallow embedding of the day-chunked waveform downloader: the day-to-chunk
planner `chunk_bounds_for_day`, the per-chunk retry/backoff/fallback loop
`fetch_with_retries`, the day-level merge/trim/select assembly, and the
orchestrator's idempotency gate and persistence step from `main`.

Time instants are modelled as second offsets from the UTC day start
(`day_start` in the source); the day spans `[0, 86400)`.  Backoff and wait
durations are modelled as rationals: the source's float arithmetic on these
values (products of 10 with 1.5 and 2, capped at 600) is exact, so ℚ is a
faithful idealization.  Exceptions raised by the fetch collaborator are
modelled as an explicit outcome type; the collaborator itself (the FDSN
client) is external to the repository and appears as an oracle parameter.
-/

namespace Kavachi

/-! ### Configuration constants (AfetchData.py lines 27–46) -/

def NETWORK : String := "AM"
def STATION : String := "RF90E"
def LOCATION : String := "00"
def CHANNEL : String := "EHZ"

def CHUNK_HOURS : Nat := 4
def REQUEST_PAUSE_SECONDS : ℚ := 5
def MAX_RETRIES : Nat := 6
def BACKOFF_INITIAL : ℚ := 10
def BACKOFF_MAX : ℚ := 600
def JITTER_MAX : ℚ := 3/2

/-! ### ChunkPlanner (`chunk_bounds_for_day`, lines 58–67)

The source iterates `for k in range(0, 24, hours_per_chunk)` and emits the
pair `(day_start + 3600*k, day_start + 3600*(k + hours_per_chunk))`.  We
model the bounds as second offsets from `day_start`; Python's
`range(0, 24, H)` for `H > 0` is `List.range' 0 ((24 + H - 1) / H) H`. -/

def chunk_bounds_for_day (hours_per_chunk : Nat) : List (Nat × Nat) :=
  (List.range' 0 ((24 + hours_per_chunk - 1) / hours_per_chunk) hours_per_chunk).map
    (fun k => (3600 * k, 3600 * (k + hours_per_chunk)))

/-! ### Data model: acquisition identity, traces, streams

The source's `Stream` is a list of obspy traces.  For the claims at hand a
trace is its identity tuple plus its samples, each sample a pair
(sample-index offset from day start, value). -/

structure Ident where
  network : String
  station : String
  location : String
  channel : String
deriving DecidableEq

structure TraceM where
  ident : Ident
  samples : List (Int × Int)
deriving DecidableEq

/-- A (possibly empty) sample stream, as returned by the fetch collaborator. -/
abbrev Str := List TraceM

/-! ### DayAssembler (`main`, lines 188–199)

The source runs `s_all.merge(method=1, fill_value=0)`,
`s_all.trim(day_start, day_end, pad=True, fill_value=0)` and
`s_all.select(network=…, station=…, location=…, channel=…)`, all three
delegated to the obspy library, which is an external collaborator outside
this repository.  Modelled from the spec: per §4.5 the merge resolves a
duplicate instant by first-writer-wins, the trim clips/pads the stream to
exactly `[dayStart, dayStart+24h)` with fill value 0, and the select keeps
only the configured identity; the result is empty exactly when no trace of
the configured identity is present. -/

def lookupPos : List (Int × Int) → Int → Option Int
  | [], _ => none
  | (p, v) :: rest, i => if p = i then some v else lookupPos rest i

/-- The merged sample store for the configured identity: samples of all
matching traces in arrival order (first writer wins via `lookupPos`). -/
def mergedSamples (cfg : Ident) (ts : List TraceM) : List (Int × Int) :=
  ((ts.filter (fun t => t.ident = cfg)).map TraceM.samples).flatten

/-- Merge, trim to the day with zero fill, and select the configured
identity, at sampling rate `sr` samples per second (nominal day sample
count `86400 * sr`).  `none` models "empty after trim/select". -/
def assembleDay (cfg : Ident) (sr : Nat) (ts : List TraceM) :
    Option (List (Nat × Int)) :=
  if (ts.filter (fun t => t.ident = cfg)).isEmpty then none
  else
    some ((List.range (86400 * sr)).map
      (fun i => (i, (lookupPos (mergedSamples cfg ts) (Int.ofNat i)).getD 0)))

/-! ### ChunkFetcher (`fetch_with_retries`, lines 101–138)

One attempt of the fetch collaborator either returns a stream, raises the
corrupt-record error `InternalMSEEDError`, or raises some other exception.
For the latter the loop only inspects (a) whether the message indicates
HTTP 429 / rate limiting (`is_429`) and (b) the parsed Retry-After hint
(`parse_retry_after_from_exception`, consulted only when `is_429`); the
oracle therefore carries that classification directly.  The oracle and the
lenient fallback are indexed by the attempt number at which they are
invoked; `fallback n = none` models the fallback itself raising. -/

inductive AttemptResult where
  | success (st : Str)
  | corrupt
  | failure (is429 : Bool) (hint : Option Nat)
deriving DecidableEq

def AttemptResult.isFailure : AttemptResult → Bool
  | .failure _ _ => true
  | _ => false

def AttemptResult.failCls : AttemptResult → Bool
  | .failure c _ => c
  | _ => false

def AttemptResult.failHint : AttemptResult → Option Nat
  | .failure _ h => h
  | _ => none

/-- `wait_sec = parse_retry_after_from_exception(msg) if is_429 else None`. -/
def effHint (is429 : Bool) (hint : Option Nat) : Option Nat :=
  if is429 then hint else none

/-- Lines 132–135: the wait for this attempt and the updated stored backoff.
If a Retry-After hint is usable it becomes the wait and the stored backoff
is untouched; otherwise `wait = min(backoff, BACKOFF_MAX)` and
`backoff = min(backoff * (2 if is_429 else 1.5), BACKOFF_MAX)`. -/
def backoff_wait_update (is429 : Bool) (hint : Option Nat) (backoff : ℚ) : ℚ × ℚ :=
  match effHint is429 hint with
  | some h => ((h : ℚ), backoff)
  | none => (min backoff BACKOFF_MAX, min (backoff * (if is429 then 2 else 3/2)) BACKOFF_MAX)

/-- The growth factor `(2 if is_429 else 1.5)` of line 135. -/
def growth (is429 : Bool) : ℚ :=
  if is429 then 2 else 3/2

/-- Observable record of one `fetch_with_retries` run: how many normal
fetch calls and lenient fallback calls were made, the sleeps performed by
the retry loop (classification, hint, and pre-jitter wait seconds), and
the returned stream. -/
structure FetchLog where
  calls : Nat
  fallbackCalls : Nat
  waits : List (Bool × Option Nat × ℚ)
  result : Str
deriving DecidableEq

/-- The `while True` loop of `fetch_with_retries`, with state
`(attempt, backoff)`.  The loop body makes one collaborator call; a failure
beyond `maxRetries` returns the empty stream.  `fuel` is a structural bound
on the remaining iterations: the loop gives up once `attempt` would exceed
`maxRetries`, so `maxRetries + 1 - attempt` iterations always suffice and
the `fuel = 0` branch is unreachable from `fetch_with_retries`
(`fetchLoopF_fuel_stable`). -/
def fetchLoopF (oracle : Nat → AttemptResult) (fallback : Nat → Option Str)
    (maxRetries : Nat) : Nat → Nat → ℚ → FetchLog
  | 0, _, _ => ⟨0, 0, [], []⟩
  | fuel + 1, attempt, backoff =>
    match oracle attempt with
    | .success st => ⟨1, 0, [], st⟩
    | .corrupt => ⟨1, 1, [], (fallback attempt).getD []⟩
    | .failure is429 hint =>
      if maxRetries < attempt + 1 then ⟨1, 0, [], []⟩
      else
        let wu := backoff_wait_update is429 hint backoff
        let rest := fetchLoopF oracle fallback maxRetries fuel (attempt + 1) wu.2
        ⟨1 + rest.calls, rest.fallbackCalls, (is429, hint, wu.1) :: rest.waits, rest.result⟩

/-- `fetch_with_retries` (lines 101–138): run the loop from
`attempt = 0`, `backoff = BACKOFF_INITIAL`. -/
def fetch_with_retries (oracle : Nat → AttemptResult) (fallback : Nat → Option Str)
    (maxRetries : Nat) : FetchLog :=
  fetchLoopF oracle fallback maxRetries (maxRetries + 1) 0 BACKOFF_INITIAL

/-- `polite_sleep` (lines 81–82): total sleep for one call, where the
jitter draw `random.random()` is a parameter `draw ∈ [0, 1)`. -/
def polite_sleep (seconds draw : ℚ) : ℚ :=
  seconds + draw * JITTER_MAX

/-- One failure attempt's effect on the stored backoff. -/
def stepB (e : AttemptResult) (b : ℚ) : ℚ :=
  (backoff_wait_update e.failCls e.failHint b).2

/-- Stored backoff after the `k` consecutive failure attempts
`a, a+1, …, a+k-1` of the oracle, starting from backoff `b`. -/
def backoffRun (oracle : Nat → AttemptResult) : Nat → Nat → ℚ → ℚ
  | _, 0, b => b
  | a, k + 1, b => backoffRun oracle (a + 1) k (stepB (oracle a) b)

/-- The waits recorded for the `k` consecutive failure attempts
`a, …, a+k-1`, starting from backoff `b`. -/
def waitsRun (oracle : Nat → AttemptResult) : Nat → Nat → ℚ → List (Bool × Option Nat × ℚ)
  | _, 0, _ => []
  | a, k + 1, b =>
    ((oracle a).failCls, (oracle a).failHint,
      (backoff_wait_update (oracle a).failCls (oracle a).failHint b).1)
      :: waitsRun oracle (a + 1) k (stepB (oracle a) b)

/-- Whether an attempt's wait came from a provider hint rather than the
backoff formula. -/
def usesHint (e : AttemptResult) : Bool :=
  (effHint e.failCls e.failHint).isSome

/-- Stored backoff after folding a list of attempt outcomes. -/
def backoffFold (es : List AttemptResult) (b : ℚ) : ℚ :=
  es.foldl (fun acc e => stepB e acc) b

/-! ### Orchestrator (`main`, lines 141–206)

Per day: the gate (lines 164–170) checks the dayplot artifact, then the
MiniSEED file, and skips before any fetch; otherwise one
`fetch_with_retries` call is made per planned chunk (lines 174–182). -/

structure DayFS where
  mseedExists : Bool
  dayplotExists : Bool
deriving DecidableEq

/-- Number of fetch calls made for one day given the artifact state. -/
def process_day_fetch_calls (d : DayFS) : Nat :=
  if d.dayplotExists then 0
  else if d.mseedExists then 0
  else (chunk_bounds_for_day CHUNK_HOURS).length

/-- `daterange` (lines 50–55), days as ordinals: start inclusive, end
exclusive. -/
def daterange (s e : Nat) : List Nat :=
  List.range' s (e - s)

/-- Total fetch calls of one `main` run over the configured range, given
the per-day artifact state. -/
def main_fetch_calls (fs : Nat → DayFS) (s e : Nat) : Nat :=
  ((daterange s e).map (fun d => process_day_fetch_calls (fs d))).sum

/-- The persistence step (line 203): `s_all.write(str(mseed_path), …)`
performs an unconditional write, replacing any previous file at the path;
the source performs no existence check at write time. -/
def stream_write (fsys : String → Option String) (path content : String) :
    String → Option String :=
  fun p => if p = path then some content else fsys p

/-- Whether one day's processing reaches the write at line 203: only when
the gate did not skip and the assembled stream is non-empty. -/
def process_day_writes (d : DayFS) (assembled_nonempty : Bool) : Bool :=
  if d.dayplotExists then false
  else if d.mseedExists then false
  else assembled_nonempty

/-! ## Theorems -/

/-- With `24 % H = 0` the Python range length `⌈24/H⌉` is exactly `24 / H`. -/
theorem chunk_bounds_length (H : Nat) (h : 24 % H = 0) :
    (chunk_bounds_for_day H).length = 24 / H := by
  have hH : 0 < H := by
    rcases Nat.eq_zero_or_pos H with h0 | h0
    · subst h0; simp at h
    · exact h0
  have hdvd : H ∣ 24 := Nat.dvd_of_mod_eq_zero h
  obtain ⟨q, hq⟩ := hdvd
  have hq' : 24 / H = q := by
    rw [hq, Nat.mul_div_cancel_left q hH]
  have hlen : (24 + H - 1) / H = q := by
    have h1 : 24 + H - 1 = H * q + (H - 1) := by omega
    rw [h1, Nat.mul_add_div hH, Nat.div_eq_of_lt (by omega), Nat.add_zero]
  unfold chunk_bounds_for_day
  rw [List.length_map, List.length_range', hlen, hq']

/-- Each planned window is `[3600·H·i, 3600·H·(i+1))` in offset seconds. -/
theorem chunk_bounds_get (H : Nat) (i : Nat)
    (hi : i < (chunk_bounds_for_day H).length) :
    (chunk_bounds_for_day H).get ⟨i, hi⟩ = (3600 * (H * i), 3600 * (H * i + H)) := by
  simp [chunk_bounds_for_day, List.get_eq_getElem, List.getElem_range']

/-- Claim C1: for every calendar day and every chunk width `H` (hours) with
`24 % H = 0`, the chunk planner returns exactly `24 / H` windows, in
chronological order, pairwise non-overlapping, each window's end equal to the
next window's start, and their union equal to the day `[dayStart, dayStart+24h)`
(in offset seconds, `[0, 86400)`). -/
theorem C1_chunk_planner (H : Nat) (h : 24 % H = 0) :
    (chunk_bounds_for_day H).length = 24 / H ∧
    (∀ i, ∀ hi : i < (chunk_bounds_for_day H).length,
      ((chunk_bounds_for_day H).get ⟨i, hi⟩).1 < ((chunk_bounds_for_day H).get ⟨i, hi⟩).2) ∧
    (∀ i, ∀ hi : i < (chunk_bounds_for_day H).length, ∀ hi' : i + 1 < (chunk_bounds_for_day H).length,
      ((chunk_bounds_for_day H).get ⟨i, hi⟩).2 = ((chunk_bounds_for_day H).get ⟨i + 1, hi'⟩).1) ∧
    (∀ i j, ∀ hi : i < (chunk_bounds_for_day H).length, ∀ hj : j < (chunk_bounds_for_day H).length,
      i < j → ((chunk_bounds_for_day H).get ⟨i, hi⟩).2 ≤ ((chunk_bounds_for_day H).get ⟨j, hj⟩).1) ∧
    (∀ t : Nat, (∃ i, ∃ hi : i < (chunk_bounds_for_day H).length,
        ((chunk_bounds_for_day H).get ⟨i, hi⟩).1 ≤ t ∧ t < ((chunk_bounds_for_day H).get ⟨i, hi⟩).2)
      ↔ t < 86400) := by
  have hH : 0 < H := by
    rcases Nat.eq_zero_or_pos H with h0 | h0
    · subst h0; simp at h
    · exact h0
  have hlen := chunk_bounds_length H h
  have h24 : H * (24 / H) = 24 := Nat.mul_div_cancel' (Nat.dvd_of_mod_eq_zero h)
  refine ⟨hlen, ?_, ?_, ?_, ?_⟩
  · intro i hi
    rw [chunk_bounds_get H i hi]
    omega
  · intro i hi hi'
    rw [chunk_bounds_get H i hi, chunk_bounds_get H (i + 1) hi']
    ring
  · intro i j hi hj hij
    rw [chunk_bounds_get H i hi, chunk_bounds_get H j hj]
    have h1 : H * (i + 1) ≤ H * j := mul_le_mul_left' (Nat.succ_le_of_lt hij) H
    have h2 : H * (i + 1) = H * i + H := by ring
    exact mul_le_mul_left' (by omega) 3600
  · intro t
    constructor
    · rintro ⟨i, hi, h1, h2⟩
      rw [chunk_bounds_get H i hi] at h2
      have hin : i < 24 / H := hlen ▸ hi
      have h3 : H * (i + 1) ≤ H * (24 / H) := mul_le_mul_left' (Nat.succ_le_of_lt hin) H
      have h4 : H * (i + 1) = H * i + H := by ring
      calc t < 3600 * (H * i + H) := h2
        _ ≤ 3600 * (H * (24 / H)) := mul_le_mul_left' (by omega) 3600
        _ = 86400 := by rw [h24]
    · intro ht
      have hdpos : 0 < 3600 * H := by positivity
      have hidx : t / (3600 * H) < (chunk_bounds_for_day H).length := by
        rw [hlen, Nat.div_lt_iff_lt_mul hdpos]
        calc t < 86400 := ht
          _ = 24 / H * (3600 * H) := by
              rw [show 24 / H * (3600 * H) = 3600 * (H * (24 / H)) by ring, h24]
      refine ⟨t / (3600 * H), hidx, ?_, ?_⟩
      · rw [chunk_bounds_get]
        calc 3600 * (H * (t / (3600 * H))) = 3600 * H * (t / (3600 * H)) := by ring
          _ ≤ t := Nat.mul_div_le t (3600 * H)
      · rw [chunk_bounds_get]
        calc t < 3600 * H * (t / (3600 * H) + 1) := Nat.lt_mul_div_succ t hdpos
          _ = 3600 * (H * (t / (3600 * H)) + H) := by ring

/-- Witness for C1 at the configured chunk width `H = 4`. -/
theorem C1_chunk_planner_witness :
    24 % 4 = 0 ∧
    ((chunk_bounds_for_day 4).length = 24 / 4 ∧
    (∀ i, ∀ hi : i < (chunk_bounds_for_day 4).length,
      ((chunk_bounds_for_day 4).get ⟨i, hi⟩).1 < ((chunk_bounds_for_day 4).get ⟨i, hi⟩).2) ∧
    (∀ i, ∀ hi : i < (chunk_bounds_for_day 4).length, ∀ hi' : i + 1 < (chunk_bounds_for_day 4).length,
      ((chunk_bounds_for_day 4).get ⟨i, hi⟩).2 = ((chunk_bounds_for_day 4).get ⟨i + 1, hi'⟩).1) ∧
    (∀ i j, ∀ hi : i < (chunk_bounds_for_day 4).length, ∀ hj : j < (chunk_bounds_for_day 4).length,
      i < j → ((chunk_bounds_for_day 4).get ⟨i, hi⟩).2 ≤ ((chunk_bounds_for_day 4).get ⟨j, hj⟩).1) ∧
    (∀ t : Nat, (∃ i, ∃ hi : i < (chunk_bounds_for_day 4).length,
        ((chunk_bounds_for_day 4).get ⟨i, hi⟩).1 ≤ t ∧ t < ((chunk_bounds_for_day 4).get ⟨i, hi⟩).2)
      ↔ t < 86400)) :=
  ⟨by decide, C1_chunk_planner 4 (by decide)⟩

/-! ### Unfolding lemmas for one iteration of the retry loop -/

theorem fetchLoopF_success (o : Nat → AttemptResult) (f : Nat → Option Str)
    (mr fl a : Nat) (b : ℚ) (st : Str) (h : o a = .success st) :
    fetchLoopF o f mr (fl + 1) a b = ⟨1, 0, [], st⟩ := by
  simp [fetchLoopF, h]

theorem fetchLoopF_corrupt (o : Nat → AttemptResult) (f : Nat → Option Str)
    (mr fl a : Nat) (b : ℚ) (h : o a = .corrupt) :
    fetchLoopF o f mr (fl + 1) a b = ⟨1, 1, [], (f a).getD []⟩ := by
  simp [fetchLoopF, h]

theorem fetchLoopF_giveup (o : Nat → AttemptResult) (f : Nat → Option Str)
    (mr fl a : Nat) (b : ℚ) (c : Bool) (hn : Option Nat)
    (h : o a = .failure c hn) (hmr : mr < a + 1) :
    fetchLoopF o f mr (fl + 1) a b = ⟨1, 0, [], []⟩ := by
  simp [fetchLoopF, h, hmr]

theorem fetchLoopF_retry (o : Nat → AttemptResult) (f : Nat → Option Str)
    (mr fl a : Nat) (b : ℚ) (c : Bool) (hn : Option Nat)
    (h : o a = .failure c hn) (hmr : a + 1 ≤ mr) :
    fetchLoopF o f mr (fl + 1) a b =
      ⟨1 + (fetchLoopF o f mr fl (a + 1) (backoff_wait_update c hn b).2).calls,
       (fetchLoopF o f mr fl (a + 1) (backoff_wait_update c hn b).2).fallbackCalls,
       (c, hn, (backoff_wait_update c hn b).1)
         :: (fetchLoopF o f mr fl (a + 1) (backoff_wait_update c hn b).2).waits,
       (fetchLoopF o f mr fl (a + 1) (backoff_wait_update c hn b).2).result⟩ := by
  simp [fetchLoopF, h, Nat.not_lt.mpr hmr]

/-- The fuel argument is irrelevant as long as it covers the remaining
iteration bound `maxRetries + 1 - attempt`; in particular the `fuel = 0`
branch of `fetchLoopF` is unreachable from `fetch_with_retries`. -/
theorem fetchLoopF_fuel_stable (o : Nat → AttemptResult) (f : Nat → Option Str) (mr : Nat) :
    ∀ fl fl' a b, a ≤ mr → mr + 1 - a ≤ fl → mr + 1 - a ≤ fl' →
      fetchLoopF o f mr fl a b = fetchLoopF o f mr fl' a b := by
  intro fl
  induction fl with
  | zero => intro fl' a b ha h1 h2; omega
  | succ fl ih =>
    intro fl' a b ha h1 h2
    obtain ⟨fl'', rfl⟩ : ∃ k, fl' = k + 1 := ⟨fl' - 1, by omega⟩
    cases h : o a with
    | success st =>
        rw [fetchLoopF_success o f mr fl a b st h, fetchLoopF_success o f mr fl'' a b st h]
    | corrupt =>
        rw [fetchLoopF_corrupt o f mr fl a b h, fetchLoopF_corrupt o f mr fl'' a b h]
    | failure c hn =>
        by_cases hc : mr < a + 1
        · rw [fetchLoopF_giveup o f mr fl a b c hn h hc,
            fetchLoopF_giveup o f mr fl'' a b c hn h hc]
        · have hc' : a + 1 ≤ mr := by omega
          rw [fetchLoopF_retry o f mr fl a b c hn h hc',
            fetchLoopF_retry o f mr fl'' a b c hn h hc',
            ih fl'' (a + 1) (backoff_wait_update c hn b).2 (by omega) (by omega) (by omega)]

/-- Running the loop across `k` consecutive failing attempts `a, …, a+k-1`
(none of which exhausts the retry budget) makes `k` calls, records the `k`
waits of `waitsRun`, carries the backoff to `backoffRun`, and continues at
attempt `a + k`. -/
theorem fetchLoopF_fail_run (o : Nat → AttemptResult) (f : Nat → Option Str) (mr : Nat) :
    ∀ (k a : Nat) (b : ℚ), (∀ j, j < k → ((o (a + j)).isFailure = true)) → a + k ≤ mr →
      fetchLoopF o f mr (mr + 1 - a) a b =
        ⟨k + (fetchLoopF o f mr (mr + 1 - (a + k)) (a + k) (backoffRun o a k b)).calls,
         (fetchLoopF o f mr (mr + 1 - (a + k)) (a + k) (backoffRun o a k b)).fallbackCalls,
         waitsRun o a k b
           ++ (fetchLoopF o f mr (mr + 1 - (a + k)) (a + k) (backoffRun o a k b)).waits,
         (fetchLoopF o f mr (mr + 1 - (a + k)) (a + k) (backoffRun o a k b)).result⟩ := by
  intro k
  induction k with
  | zero => intro a b _ _; simp [backoffRun, waitsRun]
  | succ k ih =>
    intro a b hfail hle
    have h0 : (o a).isFailure = true := by
      have := hfail 0 (by omega)
      simpa using this
    cases h : o a with
    | success st => rw [h] at h0; simp [AttemptResult.isFailure] at h0
    | corrupt => rw [h] at h0; simp [AttemptResult.isFailure] at h0
    | failure c hn =>
        have ha : a ≤ mr := by omega
        have hfuel : mr + 1 - a = (mr - a) + 1 := by omega
        have hc' : a + 1 ≤ mr := by omega
        rw [hfuel, fetchLoopF_retry o f mr (mr - a) a b c hn h hc']
        have hfuel' : mr - a = mr + 1 - (a + 1) := by omega
        have hstep : (backoff_wait_update c hn b).2 = stepB (o a) b := by
          simp [stepB, h, AttemptResult.failCls, AttemptResult.failHint]
        have ihape := ih (a + 1) (stepB (o a) b)
          (fun j hj => by
            have := hfail (j + 1) (by omega)
            simpa [Nat.add_assoc, Nat.add_comm 1 j] using this)
          (by omega)
        rw [hfuel', hstep, ihape]
        have hb : backoffRun o (a + 1) k (stepB (o a) b) = backoffRun o a (k + 1) b := by
          simp [backoffRun]
        have hw : waitsRun o a (k + 1) b =
            (c, hn, (backoff_wait_update c hn b).1)
              :: waitsRun o (a + 1) k (stepB (o a) b) := by
          simp [waitsRun, h, AttemptResult.failCls, AttemptResult.failHint]
        have hak : a + 1 + k = a + (k + 1) := by omega
        simp only [hb, hak, hw, List.cons_append, FetchLog.mk.injEq]
        refine ⟨by omega, ?_, ?_, ?_⟩ <;> trivial

/-- Claim C3: if the collaborator fails with a rate-limit or transient
error on every attempt, `fetch_with_retries` makes exactly
`maxRetries + 1` collaborator calls (1 initial attempt plus `maxRetries`
retries) and returns the empty stream. -/
theorem C3_retry_exhaustion (o : Nat → AttemptResult) (f : Nat → Option Str) (mr : Nat)
    (h : ∀ n, (o n).isFailure = true) :
    (fetch_with_retries o f mr).calls = mr + 1 ∧
    (fetch_with_retries o f mr).result = [] := by
  have hrun := fetchLoopF_fail_run o f mr mr 0 BACKOFF_INITIAL
    (fun j _ => h (0 + j)) (by omega)
  have h0 : (0 : Nat) + mr = mr := by omega
  rw [h0] at hrun
  have hend : fetchLoopF o f mr (mr + 1 - mr) mr (backoffRun o 0 mr BACKOFF_INITIAL)
      = ⟨1, 0, [], []⟩ := by
    have hm : (o mr).isFailure = true := h mr
    cases hm' : o mr with
    | success st => rw [hm'] at hm; simp [AttemptResult.isFailure] at hm
    | corrupt => rw [hm'] at hm; simp [AttemptResult.isFailure] at hm
    | failure c hn =>
        have hfuel : mr + 1 - mr = 0 + 1 := by omega
        rw [hfuel]
        exact fetchLoopF_giveup o f mr 0 mr _ c hn hm' (by omega)
  rw [hend] at hrun
  have : fetch_with_retries o f mr = fetchLoopF o f mr (mr + 1 - 0) 0 BACKOFF_INITIAL := by
    simp [fetch_with_retries]
  rw [this, hrun]
  exact ⟨rfl, rfl⟩

/-- Witness for C3 at `maxRetries = 3`: an always-transiently-failing
collaborator is called exactly 4 times, then the empty stream is returned. -/
theorem C3_retry_exhaustion_witness :
    (∀ n : Nat, ((fun _ => AttemptResult.failure true none) n).isFailure = true) ∧
    ((fetch_with_retries (fun _ => .failure true none) (fun _ => none) 3).calls = 3 + 1 ∧
     (fetch_with_retries (fun _ => .failure true none) (fun _ => none) 3).result = []) :=
  ⟨fun _ => rfl, C3_retry_exhaustion (fun _ => .failure true none) (fun _ => none) 3
    (fun _ => rfl)⟩

/-- Claim C4: if attempt `m` fails with the corrupt-record error (after `m`
rate-limited/transient failures), the fetcher performs exactly one lenient
fallback fetch and terminates for that window: it makes no further normal
fetch calls, and returns the fallback's stream — the stream itself if the
fallback succeeds (non-empty or empty alike), and the empty stream if the
fallback raises (`fallback m = none`). -/
theorem C4_corrupt_fallback (o : Nat → AttemptResult) (f : Nat → Option Str) (mr m : Nat)
    (hm : m ≤ mr) (hcor : o m = .corrupt)
    (hfail : ∀ j, j < m → (o j).isFailure = true) :
    (fetch_with_retries o f mr).calls = m + 1 ∧
    (fetch_with_retries o f mr).fallbackCalls = 1 ∧
    (fetch_with_retries o f mr).result = (f m).getD [] := by
  have hrun := fetchLoopF_fail_run o f mr m 0 BACKOFF_INITIAL
    (fun j hj => by simpa using hfail j hj) (by omega)
  have h0 : (0 : Nat) + m = m := by omega
  rw [h0] at hrun
  have hend : fetchLoopF o f mr (mr + 1 - m) m (backoffRun o 0 m BACKOFF_INITIAL)
      = ⟨1, 1, [], (f m).getD []⟩ := by
    have hfuel : mr + 1 - m = (mr - m) + 1 := by omega
    rw [hfuel]
    exact fetchLoopF_corrupt o f mr (mr - m) m _ hcor
  rw [hend] at hrun
  have hfw : fetch_with_retries o f mr = fetchLoopF o f mr (mr + 1 - 0) 0 BACKOFF_INITIAL := by
    simp [fetch_with_retries]
  rw [hfw, hrun]
  exact ⟨rfl, rfl, rfl⟩

/-- Witness for C4: an immediately-corrupt window whose fallback recovers a
one-trace stream — one normal call, one fallback call, fallback stream
returned. -/
theorem C4_corrupt_fallback_witness :
    (0 ≤ 6 ∧ (fun _ => AttemptResult.corrupt) 0 = AttemptResult.corrupt ∧
      (∀ j : Nat, j < 0 → (((fun _ => AttemptResult.corrupt) j).isFailure = true))) ∧
    ((fetch_with_retries (fun _ => .corrupt)
        (fun _ => some [⟨⟨"AM", "RF90E", "00", "EHZ"⟩, [(0, 5)]⟩]) 6).calls = 0 + 1 ∧
     (fetch_with_retries (fun _ => .corrupt)
        (fun _ => some [⟨⟨"AM", "RF90E", "00", "EHZ"⟩, [(0, 5)]⟩]) 6).fallbackCalls = 1 ∧
     (fetch_with_retries (fun _ => .corrupt)
        (fun _ => some [⟨⟨"AM", "RF90E", "00", "EHZ"⟩, [(0, 5)]⟩]) 6).result =
       ((fun _ => some [⟨⟨"AM", "RF90E", "00", "EHZ"⟩, [(0, 5)]⟩]) 0).getD []) :=
  ⟨⟨by omega, rfl, fun j hj => absurd hj (by omega)⟩,
    C4_corrupt_fallback (fun _ => .corrupt)
      (fun _ => some [⟨⟨"AM", "RF90E", "00", "EHZ"⟩, [(0, 5)]⟩]) 6 0
      (by omega) rfl (fun j hj => absurd hj (by omega))⟩

/-- For every oracle, fallback and retry budget the loop makes at most
`fuel` normal calls and at most one fallback call. -/
theorem fetchLoopF_bounded (o : Nat → AttemptResult) (f : Nat → Option Str) (mr : Nat) :
    ∀ fl a b, (fetchLoopF o f mr fl a b).calls ≤ fl ∧
      (fetchLoopF o f mr fl a b).fallbackCalls ≤ 1 := by
  intro fl
  induction fl with
  | zero => intro a b; simp [fetchLoopF]
  | succ fl ih =>
    intro a b
    cases h : o a with
    | success st => rw [fetchLoopF_success o f mr fl a b st h]; simp
    | corrupt => rw [fetchLoopF_corrupt o f mr fl a b h]; simp
    | failure c hn =>
        by_cases hc : mr < a + 1
        · rw [fetchLoopF_giveup o f mr fl a b c hn h hc]; simp
        · have hc' : a + 1 ≤ mr := by omega
          rw [fetchLoopF_retry o f mr fl a b c hn h hc']
          have := ih (a + 1) (backoff_wait_update c hn b).2
          constructor
          · simp only []
            omega
          · simpa using this.2

/-- Claim C5: for every window and every sequence of collaborator outcomes
(success, corrupt-record, rate-limit, or any other error) the chunk fetcher
terminates returning a sample stream — it is a total function into
`FetchLog`, whose `result` field is the (possibly empty) stream; exceptions
of the collaborator are all consumed (they appear only as `AttemptResult`
values) and none escapes.  Termination is witnessed by the uniform bound of
`maxRetries + 1` collaborator calls and at most one fallback call. -/
theorem C5_fetcher_total (o : Nat → AttemptResult) (f : Nat → Option Str) (mr : Nat) :
    (fetch_with_retries o f mr).calls ≤ mr + 1 ∧
    (fetch_with_retries o f mr).fallbackCalls ≤ 1 :=
  fetchLoopF_bounded o f mr (mr + 1) 0 BACKOFF_INITIAL

/-! ### Backoff arithmetic -/

theorem bwu_nohint (c : Bool) (b : ℚ) :
    backoff_wait_update c none b =
      (min b BACKOFF_MAX, min (b * growth c) BACKOFF_MAX) := by
  cases c <;> simp [backoff_wait_update, effHint, growth]

/-- Clamping before multiplying by a factor `≥ 1` and re-clamping equals a
single final clamp. -/
theorem min_clamp_mul (x M p : ℚ) (hM : 0 ≤ M) (hp : 1 ≤ p) :
    min (min x M * p) M = min (x * p) M := by
  rcases le_total x M with hx | hx
  · rw [min_eq_left hx]
  · rw [min_eq_right hx]
    have h1 : M ≤ M * p := le_mul_of_one_le_right hM hp
    have h2 : M ≤ x * p := by nlinarith
    rw [min_eq_right h1, min_eq_right h2]

/-- Over a run of failures that all carry classification `c` and no usable
hint, the recorded waits follow the clamped geometric formula
`min (b * growth c ^ j, BACKOFF_MAX)`. -/
theorem waitsRun_uniform (o : Nat → AttemptResult) (c : Bool) :
    ∀ (k a : Nat) (b : ℚ), (∀ j, j < k → o (a + j) = .failure c none) →
      0 ≤ b → b ≤ BACKOFF_MAX →
      waitsRun o a k b =
        (List.range k).map
          (fun j => (c, (none : Option Nat), min (b * growth c ^ j) BACKOFF_MAX)) := by
  intro k
  induction k with
  | zero => intro a b _ _ _; simp [waitsRun]
  | succ k ih =>
    intro a b huni hb0 hbM
    have h0 : o a = .failure c none := by simpa using huni 0 (by omega)
    have hg1 : (1 : ℚ) ≤ growth c := by cases c <;> norm_num [growth]
    have hM0 : (0:ℚ) ≤ BACKOFF_MAX := by norm_num [BACKOFF_MAX]
    have hstep : stepB (o a) b = min (b * growth c) BACKOFF_MAX := by
      rw [stepB, h0]
      simp [AttemptResult.failCls, AttemptResult.failHint, bwu_nohint]
    have hb'0 : 0 ≤ min (b * growth c) BACKOFF_MAX :=
      le_min (by nlinarith) hM0
    have hb'M : min (b * growth c) BACKOFF_MAX ≤ BACKOFF_MAX := min_le_right _ _
    have ihh := ih (a + 1) (min (b * growth c) BACKOFF_MAX)
      (fun j hj => by
        have := huni (j + 1) (by omega)
        simpa [Nat.add_assoc, Nat.add_comm 1 j] using this)
      hb'0 hb'M
    rw [show waitsRun o a (k + 1) b =
      ((o a).failCls, (o a).failHint,
        (backoff_wait_update (o a).failCls (o a).failHint b).1)
        :: waitsRun o (a + 1) k (stepB (o a) b) from rfl]
    rw [hstep, ihh]
    rw [List.range_succ_eq_map, List.map_cons, List.map_map]
    congr 1
    · rw [h0]
      simp [AttemptResult.failCls, AttemptResult.failHint, bwu_nohint, min_eq_left hbM]
    · apply List.map_congr_left
      intro j hj
      show (c, (none : Option Nat), min (min (b * growth c) BACKOFF_MAX * growth c ^ j) BACKOFF_MAX)
        = (c, (none : Option Nat), min (b * growth c ^ (j + 1)) BACKOFF_MAX)
      rw [min_clamp_mul _ _ _ hM0 (one_le_pow₀ hg1)]
      rw [show b * growth c * growth c ^ j = b * growth c ^ (j + 1) by ring]

/-- Counterexample to claim C7 as stated: with a first transient failure and
a second rate-limited failure (no hints anywhere), the wait before the
second retry is `15` (the stored backoff grew by the FIRST attempt's factor
1.5), not `min(initialBackoff * 2^(2-1), maxBackoff) = 20` as the claim's
per-attempt-classification formula demands. -/
theorem C7_growth_cex :
    ((fetch_with_retries
        (fun n => if n = 0 then .failure false none else .failure true none)
        (fun _ => none) MAX_RETRIES).waits.get? 1
      = some (true, none, (15 : ℚ))) ∧
    min (BACKOFF_INITIAL * 2 ^ (2 - 1)) BACKOFF_MAX ≠ (15 : ℚ) := by
  constructor
  · set oc : Nat → AttemptResult :=
      fun n => if n = 0 then .failure false none else .failure true none with hoc
    set fc : Nat → Option Str := fun _ => none with hfc
    have hrun := fetchLoopF_fail_run oc fc MAX_RETRIES 2 0 BACKOFF_INITIAL
      (fun j hj => by interval_cases j <;> rfl) (by norm_num [MAX_RETRIES])
    have hwaits : (fetch_with_retries oc fc MAX_RETRIES).waits =
        waitsRun oc 0 2 BACKOFF_INITIAL
          ++ (fetchLoopF oc fc MAX_RETRIES (MAX_RETRIES + 1 - (0 + 2)) (0 + 2)
              (backoffRun oc 0 2 BACKOFF_INITIAL)).waits := by
      rw [show fetch_with_retries oc fc MAX_RETRIES =
        fetchLoopF oc fc MAX_RETRIES (MAX_RETRIES + 1 - 0) 0 BACKOFF_INITIAL from rfl, hrun]
    have hlist : waitsRun oc 0 2 BACKOFF_INITIAL =
        [(false, none, (10 : ℚ)), (true, none, (15 : ℚ))] := by
      norm_num [waitsRun, stepB, hoc, bwu_nohint, AttemptResult.failCls,
        AttemptResult.failHint, growth, BACKOFF_INITIAL, BACKOFF_MAX, min_def]
    rw [hwaits, hlist]
    rfl
  · norm_num [BACKOFF_INITIAL, BACKOFF_MAX]

/-- Claim C7, amended: for a window whose first `k` attempts all fail with
the same classification `c` and no usable provider hint, the wait before
retry `k` (`1 ≤ k ≤ maxRetries`) equals
`min (initialBackoff * growth(c)^(k-1), maxBackoff)` — the growth factor is
applied per failed attempt, so the power formula holds when the failing
attempts share one classification (and fails for mixed classifications,
see the counterexample). -/
theorem C7_backoff_formula (o : Nat → AttemptResult) (f : Nat → Option Str)
    (mr k : Nat) (c : Bool) (hk : 1 ≤ k) (hkm : k ≤ mr)
    (huni : ∀ j, j < k → o j = .failure c none) :
    (fetch_with_retries o f mr).waits.get? (k - 1) =
      some (c, none, min (BACKOFF_INITIAL * growth c ^ (k - 1)) BACKOFF_MAX) := by
  have hrun := fetchLoopF_fail_run o f mr k 0 BACKOFF_INITIAL
    (fun j hj => by rw [Nat.zero_add, huni j hj]; rfl) (by omega)
  have hfw : fetch_with_retries o f mr = fetchLoopF o f mr (mr + 1 - 0) 0 BACKOFF_INITIAL := by
    simp [fetch_with_retries]
  have hwr := waitsRun_uniform o c k 0 BACKOFF_INITIAL
    (fun j hj => by simpa using huni j hj)
    (by norm_num [BACKOFF_INITIAL])
    (by norm_num [BACKOFF_INITIAL, BACKOFF_MAX])
  have hwaits : (fetch_with_retries o f mr).waits =
      waitsRun o 0 k BACKOFF_INITIAL
        ++ (fetchLoopF o f mr (mr + 1 - (0 + k)) (0 + k)
            (backoffRun o 0 k BACKOFF_INITIAL)).waits := by
    rw [hfw, hrun]
  rw [hwaits, hwr]
  rw [List.get?_append (by simp [List.length_map, List.length_range]; omega)]
  rw [List.get?_map, List.get?_range (by omega)]
  rfl

/-- Witness for the amended C7 at `k = 2`, uniform rate-limited failures:
the second wait is `min(10 * 2^1, 600) = 20`. -/
theorem C7_backoff_formula_witness :
    (1 ≤ 2 ∧ 2 ≤ 6 ∧
      (∀ j : Nat, j < 2 →
        ((fun _ => AttemptResult.failure true none) j) = AttemptResult.failure true none)) ∧
    (fetch_with_retries (fun _ => .failure true none) (fun _ => none) 6).waits.get? (2 - 1) =
      some (true, none, min (BACKOFF_INITIAL * growth true ^ (2 - 1)) BACKOFF_MAX) :=
  ⟨⟨by omega, by omega, fun _ _ => rfl⟩,
    C7_backoff_formula (fun _ => .failure true none) (fun _ => none) 6 2 true
      (by omega) (by omega) (fun _ _ => rfl)⟩

/-! ### Wait bounds (claim C8) -/

theorem bwu_hint (c : Bool) (hn : Option Nat) (h' : Nat)
    (heff : effHint c hn = some h') (b : ℚ) :
    backoff_wait_update c hn b = ((h' : ℚ), b) := by
  simp only [backoff_wait_update, heff]

theorem bwu_none (c : Bool) (hn : Option Nat) (heff : effHint c hn = none) (b : ℚ) :
    backoff_wait_update c hn b =
      (min b BACKOFF_MAX, min (b * (if c then 2 else 3/2)) BACKOFF_MAX) := by
  simp only [backoff_wait_update, heff]

/-- The updated backoff stays nonnegative. -/
theorem bwu_snd_nonneg (c : Bool) (hn : Option Nat) (b : ℚ) (hb : 0 ≤ b) :
    0 ≤ (backoff_wait_update c hn b).2 := by
  cases heff : effHint c hn with
  | some h' => rw [bwu_hint c hn h' heff b]; exact hb
  | none =>
    rw [bwu_none c hn heff b]
    refine le_min (mul_nonneg hb ?_) (by norm_num [BACKOFF_MAX])
    cases c <;> norm_num

/-- Every wait recorded by the loop is the hint value when a hint was used,
and lies in `[0, BACKOFF_MAX]` when it came from the backoff formula. -/
theorem fetchLoopF_waits_wf (o : Nat → AttemptResult) (f : Nat → Option Str) (mr : Nat) :
    ∀ fl a b, 0 ≤ b →
      ∀ e ∈ (fetchLoopF o f mr fl a b).waits,
        (effHint e.1 e.2.1 = none → 0 ≤ e.2.2 ∧ e.2.2 ≤ BACKOFF_MAX) ∧
        (∀ hn : Nat, effHint e.1 e.2.1 = some hn → e.2.2 = (hn : ℚ)) := by
  intro fl
  induction fl with
  | zero => intro a b hb e he; simp [fetchLoopF] at he
  | succ fl ih =>
    intro a b hb e he
    cases h : o a with
    | success st => rw [fetchLoopF_success o f mr fl a b st h] at he; simp at he
    | corrupt => rw [fetchLoopF_corrupt o f mr fl a b h] at he; simp at he
    | failure c hn =>
      by_cases hc : mr < a + 1
      · rw [fetchLoopF_giveup o f mr fl a b c hn h hc] at he; simp at he
      · have hc' : a + 1 ≤ mr := by omega
        rw [fetchLoopF_retry o f mr fl a b c hn h hc'] at he
        simp only [List.mem_cons] at he
        rcases he with he | he
        · subst he
          constructor
          · intro heff
            simp only at heff
            rw [bwu_none c hn heff b]
            refine ⟨le_min hb (by norm_num [BACKOFF_MAX]), min_le_right _ _⟩
          · intro h' heff
            simp only at heff
            rw [bwu_hint c hn h' heff b]
        · exact ih (a + 1) (backoff_wait_update c hn b).2 (bwu_snd_nonneg c hn b hb) e he

/-- Counterexample to claim C8 as stated: a rate-limited failure carrying a
provider hint `Retry-After: 10000` is waited out in full — the hint is
returned directly, without clamping to `maxBackoff` — so the total wait
exceeds `maxBackoff + jitterMax` even with zero jitter (`0 ≤ 0 < 1` is an
admissible draw). -/
theorem C8_hint_exceeds_cap_cex :
    ((fetch_with_retries (fun _ => .failure true (some 10000)) (fun _ => none)
        MAX_RETRIES).waits.get? 0 = some (true, some 10000, (10000 : ℚ))) ∧
    ¬(polite_sleep 10000 0 ≤ BACKOFF_MAX + JITTER_MAX) ∧
    ((0:ℚ) ≤ 0 ∧ (0:ℚ) < 1) := by
  refine ⟨?_, ?_, by norm_num, by norm_num⟩
  · set oc : Nat → AttemptResult := fun _ => .failure true (some 10000) with hoc
    set fc : Nat → Option Str := fun _ => none with hfc
    have hrun := fetchLoopF_fail_run oc fc MAX_RETRIES 1 0 BACKOFF_INITIAL
      (fun j hj => by interval_cases j <;> rfl) (by norm_num [MAX_RETRIES])
    have hwaits : (fetch_with_retries oc fc MAX_RETRIES).waits =
        waitsRun oc 0 1 BACKOFF_INITIAL
          ++ (fetchLoopF oc fc MAX_RETRIES (MAX_RETRIES + 1 - (0 + 1)) (0 + 1)
              (backoffRun oc 0 1 BACKOFF_INITIAL)).waits := by
      rw [show fetch_with_retries oc fc MAX_RETRIES =
        fetchLoopF oc fc MAX_RETRIES (MAX_RETRIES + 1 - 0) 0 BACKOFF_INITIAL from rfl, hrun]
    have hlist : waitsRun oc 0 1 BACKOFF_INITIAL =
        [(true, some 10000, (10000 : ℚ))] := by
      norm_num [waitsRun, hoc, AttemptResult.failCls, AttemptResult.failHint,
        bwu_hint true (some 10000) 10000 rfl]
    rw [hwaits, hlist]
    rfl
  · norm_num [polite_sleep, BACKOFF_MAX, JITTER_MAX]

/-- Claim C8, amended: for every recorded wait and every jitter draw
`d ∈ [0, 1)`, the total sleep `wait + d * jitterMax` is never negative, and
is bounded by `maxBackoff + jitterMax` when the wait came from the backoff
formula but only by `hint + jitterMax` when a provider hint `hint` was used
(the hint is returned unclamped, so the original `maxBackoff + jitterMax`
cap does not hold on the hint path — see the counterexample). -/
theorem C8_wait_bounds (o : Nat → AttemptResult) (f : Nat → Option Str) (mr : Nat)
    (e : Bool × Option Nat × ℚ) (he : e ∈ (fetch_with_retries o f mr).waits)
    (d : ℚ) (hd0 : 0 ≤ d) (hd1 : d < 1) :
    0 ≤ polite_sleep e.2.2 d ∧
    polite_sleep e.2.2 d <
      ((effHint e.1 e.2.1).map (fun hn : Nat => (hn : ℚ))).getD BACKOFF_MAX + JITTER_MAX := by
  have hwf := fetchLoopF_waits_wf o f mr (mr + 1) 0 BACKOFF_INITIAL
    (by norm_num [BACKOFF_INITIAL]) e he
  have hJ : (0:ℚ) < JITTER_MAX := by norm_num [JITTER_MAX]
  have hdj : d * JITTER_MAX < JITTER_MAX := by nlinarith
  have hdj0 : 0 ≤ d * JITTER_MAX := mul_nonneg hd0 hJ.le
  cases heff : effHint e.1 e.2.1 with
  | none =>
    obtain ⟨h1, h2⟩ := hwf.1 heff
    constructor
    · unfold polite_sleep; nlinarith
    · unfold polite_sleep
      simp only [Option.map_none', Option.getD_none]
      nlinarith
  | some hn =>
    have hv := hwf.2 hn heff
    constructor
    · unfold polite_sleep
      have hge : (0:ℚ) ≤ (hn : ℚ) := Nat.cast_nonneg hn
      nlinarith
    · unfold polite_sleep
      simp only [Option.map_some', Option.getD_some]
      nlinarith

/-- Witness for the amended C8: the sole wait of a 1-retry run with a
transient failure, at jitter draw 0. -/
theorem C8_wait_bounds_witness :
    ((false, (none : Option Nat), (10:ℚ))
        ∈ (fetch_with_retries (fun _ => .failure false none) (fun _ => none) 1).waits ∧
      (0:ℚ) ≤ 0 ∧ (0:ℚ) < 1) ∧
    (0 ≤ polite_sleep ((false, (none : Option Nat), (10:ℚ)) : Bool × Option Nat × ℚ).2.2 0 ∧
     polite_sleep ((false, (none : Option Nat), (10:ℚ)) : Bool × Option Nat × ℚ).2.2 0 <
       ((effHint ((false, (none : Option Nat), (10:ℚ)) : Bool × Option Nat × ℚ).1
           ((false, (none : Option Nat), (10:ℚ)) : Bool × Option Nat × ℚ).2.1).map
         (fun hn : Nat => (hn : ℚ))).getD BACKOFF_MAX + JITTER_MAX) := by
  have hmem : ((false, (none : Option Nat), (10:ℚ)) : Bool × Option Nat × ℚ)
      ∈ (fetch_with_retries (fun _ => .failure false none) (fun _ => none) 1).waits := by
    set oc : Nat → AttemptResult := fun _ => .failure false none with hoc
    set fc : Nat → Option Str := fun _ => none with hfc
    have hrun := fetchLoopF_fail_run oc fc 1 1 0 BACKOFF_INITIAL
      (fun j hj => by interval_cases j <;> rfl) (by norm_num)
    have hwaits : (fetch_with_retries oc fc 1).waits =
        waitsRun oc 0 1 BACKOFF_INITIAL
          ++ (fetchLoopF oc fc 1 (1 + 1 - (0 + 1)) (0 + 1)
              (backoffRun oc 0 1 BACKOFF_INITIAL)).waits := by
      rw [show fetch_with_retries oc fc 1 =
        fetchLoopF oc fc 1 (1 + 1 - 0) 0 BACKOFF_INITIAL from rfl, hrun]
    have hlist : waitsRun oc 0 1 BACKOFF_INITIAL = [(false, none, (10 : ℚ))] := by
      norm_num [waitsRun, hoc, AttemptResult.failCls, AttemptResult.failHint,
        bwu_nohint, BACKOFF_INITIAL, BACKOFF_MAX, min_def]
    rw [hwaits, hlist]
    exact List.mem_append_left _ (List.mem_singleton_self _)
  exact ⟨⟨hmem, by norm_num, by norm_num⟩,
    C8_wait_bounds (fun _ => .failure false none) (fun _ => none) 1
      ((false, (none : Option Nat), (10:ℚ))) hmem 0 (by norm_num) (by norm_num)⟩

/-! ### The hint path leaves the stored backoff unchanged (claim C10) -/

theorem stepB_usesHint (e : AttemptResult) (b : ℚ) (h : usesHint e = true) :
    stepB e b = b := by
  unfold usesHint at h
  cases heff : effHint e.failCls e.failHint with
  | none => rw [heff] at h; simp at h
  | some hn => unfold stepB; rw [bwu_hint e.failCls e.failHint hn heff b]

/-- Claim C10: an attempt whose wait comes from a parsed Retry-After hint
leaves the stored backoff unchanged (first conjunct); consequently the
stored backoff after any sequence of attempts equals the fold over only the
attempts that used the backoff formula, i.e. it depends only on those
attempts and their classifications (second conjunct); and the backoff state
threaded through the retry loop across attempts `a, …, a+k-1`
(`backoffRun`, cf. `fetchLoopF_fail_run`) is exactly that fold (third
conjunct).  The attempt counter itself increments on every failure
regardless of path. -/
theorem C10_hint_frame :
    (∀ (hn : Nat) (b : ℚ), (backoff_wait_update true (some hn) b).2 = b) ∧
    (∀ (es : List AttemptResult) (b : ℚ),
      backoffFold es b = backoffFold (es.filter (fun e => !(usesHint e))) b) ∧
    (∀ (o : Nat → AttemptResult) (k a : Nat) (b : ℚ),
      backoffRun o a k b = backoffFold ((List.range k).map (fun j => o (a + j))) b) := by
  refine ⟨?_, ?_, ?_⟩
  · intro hn b
    rw [bwu_hint true (some hn) hn rfl b]
  · intro es
    induction es with
    | nil => intro b; rfl
    | cons e es ih =>
      intro b
      by_cases hu : usesHint e = true
      · rw [show backoffFold (e :: es) b = backoffFold es (stepB e b) from rfl,
          stepB_usesHint e b hu, ih b]
        congr 1
        simp [List.filter_cons, hu]
      · have hu' : usesHint e = false := by
          cases hv : usesHint e
          · rfl
          · exact absurd hv hu
        rw [show backoffFold (e :: es) b = backoffFold es (stepB e b) from rfl,
          ih (stepB e b)]
        rw [show (e :: es).filter (fun x => !(usesHint x))
            = e :: es.filter (fun x => !(usesHint x)) from by simp [List.filter_cons, hu']]
        rfl
  · intro o k
    induction k with
    | zero => intro a b; rfl
    | succ k ih =>
      intro a b
      rw [show backoffRun o a (k + 1) b = backoffRun o (a + 1) k (stepB (o a) b) from rfl,
        ih (a + 1) (stepB (o a) b)]
      rw [List.range_succ_eq_map, List.map_cons, List.map_map]
      rw [show backoffFold
          (o (a + 0) :: List.map ((fun j => o (a + j)) ∘ Nat.succ) (List.range k)) b
          = backoffFold (List.map ((fun j => o (a + j)) ∘ Nat.succ) (List.range k))
              (stepB (o (a + 0)) b) from rfl]
      rw [show a + 0 = a from rfl]
      congr 1
      apply List.map_congr_left
      intro j hj
      show o (a + 1 + j) = o (a + Nat.succ j)
      congr 1
      omega

/-! ### DayAssembler (claim C2) -/

/-- Claim C2: whenever the assembler's output (merge, trim with zero fill,
selection of the configured identity) is non-empty, it contains exactly
`24h * samplingRate = 86400 * sr` samples, every sample instant lies within
the day `[0, 86400 * sr)` (in sample units), and every instant not covered
by any fetched window carries the fill value 0. -/
theorem C2_day_assembly (cfg : Ident) (sr : Nat) (ts : List TraceM)
    (r : List (Nat × Int)) (h : assembleDay cfg sr ts = some r) :
    r.length = 86400 * sr ∧
    (∀ p ∈ r, p.1 < 86400 * sr) ∧
    (∀ p ∈ r, lookupPos (mergedSamples cfg ts) (Int.ofNat p.1) = none → p.2 = 0) := by
  unfold assembleDay at h
  by_cases hsel : (ts.filter (fun t => t.ident = cfg)).isEmpty
  · rw [if_pos hsel] at h
    exact absurd h (by simp)
  · rw [if_neg hsel] at h
    injection h with h
    subst h
    refine ⟨by simp, ?_, ?_⟩
    · intro p hp
      simp only [List.mem_map, List.mem_range] at hp
      obtain ⟨i, hi, rfl⟩ := hp
      simpa using hi
    · intro p hp hnone
      simp only [List.mem_map, List.mem_range] at hp
      obtain ⟨i, hi, rfl⟩ := hp
      simp only [Int.ofNat_eq_coe] at hnone
      simp [hnone]

/-- Witness for C2 (degenerate sampling rate 0, so the nominal day count is
0 and the conclusion is checkable by evaluation; the assembler still
returns `some` because a matching trace is present). -/
theorem C2_day_assembly_witness :
    (assembleDay ⟨"AM", "RF90E", "00", "EHZ"⟩ 0
        [⟨⟨"AM", "RF90E", "00", "EHZ"⟩, [(0, 7)]⟩] = some []) ∧
    (([] : List (Nat × Int)).length = 86400 * 0 ∧
     (∀ p ∈ ([] : List (Nat × Int)), p.1 < 86400 * 0) ∧
     (∀ p ∈ ([] : List (Nat × Int)),
        lookupPos (mergedSamples ⟨"AM", "RF90E", "00", "EHZ"⟩
            [⟨⟨"AM", "RF90E", "00", "EHZ"⟩, [(0, 7)]⟩]) (Int.ofNat p.1) = none →
          p.2 = 0)) := by
  have h : assembleDay ⟨"AM", "RF90E", "00", "EHZ"⟩ 0
      [⟨⟨"AM", "RF90E", "00", "EHZ"⟩, [(0, 7)]⟩] = some [] := by decide
  exact ⟨h, C2_day_assembly _ 0 _ [] h⟩

/-! ### Idempotency gate (claim C6) -/

/-- Claim C6: if a day's raw MiniSEED record or its downstream dayplot
artifact already exists, the orchestrator makes zero fetch calls for that
day (the gate at lines 164–170 runs before any fetch); over a whole range
in which every day's artifact is present — e.g. a second run over an
already-fetched range — the total number of fetch calls is zero. -/
theorem C6_idempotency_gate (fs : Nat → DayFS) (s e : Nat)
    (h : ∀ d, s ≤ d → d < e → (fs d).mseedExists = true ∨ (fs d).dayplotExists = true) :
    main_fetch_calls fs s e = 0 ∧
    (∀ g : DayFS, g.mseedExists = true ∨ g.dayplotExists = true →
      process_day_fetch_calls g = 0) := by
  have hday : ∀ g : DayFS, g.mseedExists = true ∨ g.dayplotExists = true →
      process_day_fetch_calls g = 0 := by
    intro g hg
    rcases hg with hg | hg
    · cases hdp : g.dayplotExists <;>
        simp [process_day_fetch_calls, hg, hdp]
    · simp [process_day_fetch_calls, hg]
  refine ⟨?_, hday⟩
  unfold main_fetch_calls
  rw [List.sum_eq_zero]
  intro x hx
  simp only [List.mem_map] at hx
  obtain ⟨d, hd, rfl⟩ := hx
  unfold daterange at hd
  rw [List.mem_range'] at hd
  obtain ⟨i, hi, rfl⟩ := hd
  exact hday (fs (s + 1 * i)) (h (s + 1 * i) (by omega) (by omega))

/-- Witness for C6: two days, both with the raw record present — zero fetch
calls in total. -/
theorem C6_idempotency_gate_witness :
    (∀ d : Nat, 0 ≤ d → d < 2 →
      ((fun _ => (⟨true, false⟩ : DayFS)) d).mseedExists = true ∨
      ((fun _ => (⟨true, false⟩ : DayFS)) d).dayplotExists = true) ∧
    (main_fetch_calls (fun _ => ⟨true, false⟩) 0 2 = 0 ∧
     (∀ g : DayFS, g.mseedExists = true ∨ g.dayplotExists = true →
        process_day_fetch_calls g = 0)) :=
  ⟨fun _ _ _ => Or.inl rfl,
    C6_idempotency_gate (fun _ => ⟨true, false⟩) 0 2 (fun _ _ _ => Or.inl rfl)⟩

/-! ### Persistence (claim C9) -/

/-- Counterexample to claim C9 as stated: the persistence step itself
(`s_all.write`, line 203) performs no existence check — writing to a path
that already holds contents `OLD` replaces them with `NEW`.  The write-once
behaviour of the program comes solely from the pre-fetch gate. -/
theorem C9_write_once_cex :
    ((fun p => if p = "shake_data/AM.RF90E.00.EHZ.2025-06-01.mseed"
        then some "OLD" else none)
      "shake_data/AM.RF90E.00.EHZ.2025-06-01.mseed" = some "OLD") ∧
    stream_write
      (fun p => if p = "shake_data/AM.RF90E.00.EHZ.2025-06-01.mseed"
        then some "OLD" else none)
      "shake_data/AM.RF90E.00.EHZ.2025-06-01.mseed" "NEW"
      "shake_data/AM.RF90E.00.EHZ.2025-06-01.mseed" = some "NEW" ∧
    (some "NEW" : Option String) ≠ some "OLD" := by
  refine ⟨by simp, by simp [stream_write], by simp⟩

/-- Claim C9, amended: the persistence call overwrites unconditionally
(second conjunct); within a run, overwriting a pre-existing daily record is
prevented only by the pre-fetch idempotency gate, which skips the day
before any fetch or write when its MiniSEED file already exists (first
conjunct). -/
theorem C9_gate_prevents_overwrite (d : DayFS) (x : Bool)
    (h : d.mseedExists = true) :
    process_day_writes d x = false ∧
    (∀ (fsys : String → Option String) (path content : String),
      stream_write fsys path content path = some content) := by
  constructor
  · cases hdp : d.dayplotExists <;> simp [process_day_writes, h, hdp]
  · intro fsys path content
    simp [stream_write]

/-- Witness for the amended C9. -/
theorem C9_gate_prevents_overwrite_witness :
    ((⟨true, false⟩ : DayFS).mseedExists = true) ∧
    (process_day_writes ⟨true, false⟩ true = false ∧
     (∀ (fsys : String → Option String) (path content : String),
        stream_write fsys path content path = some content)) :=
  ⟨rfl, C9_gate_prevents_overwrite ⟨true, false⟩ true rfl⟩

end Kavachi
